import Mathlib

/-!
Verification of the streaming JSON extractor (tag router + lenient SAX
scanner + tree builder) against its natural-language specification.

The Rust sources `json_parser.rs` and `tag_finder.rs` are embedded
shallowly below: Rust `String`/`&str` becomes `List Char`, `Vec` becomes
`List`, `HashMap<String, JsonValue>` becomes an association list whose
`insert` overwrites an existing binding in place, `Result` becomes
`Except`, `Option` stays `Option`.  Rust `f64` is modelled by `ℚ` holding
the exact value of the decimal literal (the spec compares numbers only
modulo floating-point precision).  Rust panics (`unreachable!`, `expect`)
are modelled by the distinguished error `JsonError.unreachableState`,
which no execution appearing in the theorems reaches.

The SAX scanner (`json_sax_scanner.rs`) is not part of the sources at
hand; it is modelled from the specification, section 4.2 (see the
`Scanner` definitions below, each marked `Modelled from the spec:`).
-/

namespace Gasp

/-- Rust strings are embedded as lists of characters. -/
abbrev Str := List Char

/-- The backslash character, named to keep escapes readable. -/
def bslash : Char := '\\'

/-- The double-quote character. -/
def dquote : Char := '"'

/-- The single-quote character (code 39). -/
def squote : Char := Char.ofNat 39

/-- Tab. -/
def tabCh : Char := '\t'

/-- Line feed. -/
def lfCh : Char := '\n'

/-- Carriage return. -/
def crCh : Char := '\r'

/-- Backspace (code 8), the decoding of the escape `\b`. -/
def bsCh : Char := '\x08'

/-- Form feed (code 12), the decoding of the escape `\f`. -/
def ffCh : Char := '\x0c'

/-- Whitespace test used throughout: Rust `char::is_whitespace`
restricted to the ASCII whitespace actually exercised by this code
(space, tab, line feed, carriage return). -/
def isWsChar (c : Char) : Bool := c = ' ' ∨ c = tabCh ∨ c = lfCh ∨ c = crCh

/-- Drop the longest suffix whose characters all satisfy `p`
(the `while ... pop()` loops of the source). -/
def dropRightWhile (p : Char → Bool) (s : Str) : Str :=
  (s.reverse.dropWhile p).reverse

/-- Rust `str::trim`: strip leading and trailing whitespace. -/
def rustTrim (s : Str) : Str :=
  dropRightWhile isWsChar (s.dropWhile isWsChar)

/-- Rust `str::trim_matches(',')`: strip leading and trailing commas. -/
def trimCommaMatches (s : Str) : Str :=
  dropRightWhile (fun c => c = ',') (s.dropWhile (fun c => c = ','))

/-- Accumulator pass behind `splitWs` (keeps the recursion structural). -/
def splitWsAux : Str → Str → List Str
  | [], acc => if acc = [] then [] else [acc.reverse]
  | c :: rest, acc =>
    if isWsChar c then
      if acc = [] then splitWsAux rest [] else acc.reverse :: splitWsAux rest []
    else splitWsAux rest (c :: acc)

/-- Rust `str::split_whitespace`: maximal whitespace-free words, in order. -/
def splitWs (s : Str) : List Str := splitWsAux s []

/-- Join a list of words with single spaces (Rust `Vec::join(" ")`). -/
def joinSp : List Str → Str
  | [] => []
  | [w] => w
  | w :: ws => w ++ ' ' :: joinSp ws

/-- `squash_ws` from `json_parser.rs`: collapse runs of whitespace to
single ASCII spaces (`s.split_whitespace().collect::<Vec<_>>().join(" ")`). -/
def squash_ws (s : Str) : Str := joinSp (splitWs s)

/-- Errors of the JSON core.  `json_types.rs` is not among the sources;
the variant set is the one used by `json_parser.rs` and named by the
spec, section 6.  `unreachableState` stands for a Rust panic. -/
inductive JsonError
  | InvalidKey
  | InvalidEscape
  | InvalidNumber (raw : Str)
  | UnexpectedEof
  | UnexpectedChar (c : Char)
  | unreachableState
deriving DecidableEq, Repr

/-- Numbers: 64-bit signed integers, or floats.  The float payload is the
exact rational value of the parsed decimal literal (see the file header
note on `f64`). -/
inductive Number
  | Integer (i : Int)
  | Float (q : ℚ)
deriving DecidableEq, Repr

/-- JSON values.  Objects are association lists; `objInsert` below
overwrites an existing binding in place, mirroring `HashMap::insert`
(iteration order is unspecified by the spec, and the concrete traces in
the theorems below use each key at most once). -/
inductive JsonValue
  | Null
  | Boolean (b : Bool)
  | Number (n : Number)
  | String (s : Str)
  | Array (xs : List JsonValue)
  | Object (m : List (Str × JsonValue))
deriving Repr

/-- `parse_ident` from `json_parser.rs`: the explicit match on the
prefixes of the three keywords. -/
def parse_ident (buf : Str) : Option JsonValue :=
  if buf = ("t".data) ∨ buf = ("tr".data) ∨ buf = ("tru".data) ∨ buf = ("true".data) then
    some (.Boolean true)
  else if buf = ("f".data) ∨ buf = ("fa".data) ∨ buf = ("fal".data) ∨
      buf = ("fals".data) ∨ buf = ("false".data) then
    some (.Boolean false)
  else if buf = ("n".data) ∨ buf = ("nu".data) ∨ buf = ("nul".data) ∨ buf = ("null".data) then
    some .Null
  else
    none

/-- The trailing characters stripped by `parse_number` before parsing. -/
def isNumStripChar (c : Char) : Bool :=
  c = '}' ∨ c = ',' ∨ c = ']' ∨ c = ' ' ∨ c = lfCh ∨ c = crCh ∨ c = tabCh ∨
    c = '-' ∨ c = '+' ∨ c = '.' ∨ c = 'e' ∨ c = 'E'

/-- Decimal value of a digit string (underlying both integer parsers). -/
def digitsVal (ds : Str) : Nat :=
  ds.foldl (fun a c => a * 10 + (c.toNat - 48)) 0

/-- Rust `str::parse::<i64>`: optional sign, then one or more decimal
digits and nothing else, with the value required to fit in 64 signed
bits (overflow is a parse error). -/
def rustParseI64 (s : Str) : Option Int :=
  let p : Int × Str :=
    match s with
    | '+' :: r => (1, r)
    | '-' :: r => (-1, r)
    | r => (1, r)
  if p.2 = [] ∨ p.2.any (fun c => ¬ c.isDigit) then none
  else
    let v : Int := p.1 * (digitsVal p.2 : Int)
    if -(2 ^ 63) ≤ v ∧ v ≤ 2 ^ 63 - 1 then some v else none

/-- Rust `str::parse::<f64>` on its decimal forms: optional sign, a
mantissa `D+ | D+ . D* | . D+`, and an optional exponent `(e|E)[+|-]D+`,
consuming the whole input.  The result is the exact rational value of
the literal.  Rust additionally accepts `inf`/`infinity`/`nan`
(case-insensitively); those forms contain none of `.`, `e`, `E`, so the
float branch of `parse_number` — the only caller — never passes them in,
and they are omitted here. -/
def rustParseF64 (s : Str) : Option ℚ :=
  let p : ℚ × Str :=
    match s with
    | '+' :: r => (1, r)
    | '-' :: r => (-1, r)
    | r => (1, r)
  let ip := p.2.span Char.isDigit
  let fp : Option Str × Str :=
    match ip.2 with
    | '.' :: rr => ((rr.span Char.isDigit).1, (rr.span Char.isDigit).2) |> fun q => (some q.1, q.2)
    | r2 => (none, r2)
  let fds : Str := fp.1.getD []
  if ip.1 = [] ∧ fds = [] then none
  else
    let mant : ℚ := (digitsVal ip.1 : ℚ) + (digitsVal fds : ℚ) / ((10 : ℚ) ^ fds.length)
    match fp.2 with
    | [] => some (p.1 * mant)
    | e :: rr =>
      if e = 'e' ∨ e = 'E' then
        let ep : Int × Str :=
          match rr with
          | '+' :: q => (1, q)
          | '-' :: q => (-1, q)
          | q => (1, q)
        let eds := ep.2.span Char.isDigit
        if eds.1 = [] ∨ eds.2 ≠ [] then none
        else some (p.1 * mant * (10 : ℚ) ^ (ep.1 * (digitsVal eds.1 : Int)))
      else none

/-- `parse_number` from `json_parser.rs`: prefix `0` when the buffer
starts with `.`, `-.` or `+.`; pop trailing characters from the strip
set; then parse as `f64` when a `.`, `e` or `E` remains and as `i64`
otherwise.  A failed parse reports `InvalidNumber` carrying the cooked
text. -/
def parse_number (raw : Str) : Except JsonError Number :=
  let cooked0 :=
    if raw.head? = some '.' ∨ raw.take 2 = ['-', '.'] ∨ raw.take 2 = ['+', '.'] then
      '0' :: raw
    else raw
  let cooked := dropRightWhile isNumStripChar cooked0
  if cooked.any (fun c => c = '.' ∨ c = 'e' ∨ c = 'E') then
    match rustParseF64 cooked with
    | some q => .ok (.Float q)
    | none => .error (.InvalidNumber cooked)
  else
    match rustParseI64 cooked with
    | some i => .ok (.Integer i)
    | none => .error (.InvalidNumber cooked)

/-- Hexadecimal digit test (`char::is_ascii_hexdigit`), phrased on the
character code: `0`–`9`, `a`–`f`, `A`–`F`. -/
def isHexDig (c : Char) : Bool :=
  (48 ≤ c.toNat ∧ c.toNat ≤ 57) ∨ (97 ≤ c.toNat ∧ c.toNat ≤ 102) ∨
    (65 ≤ c.toNat ∧ c.toNat ≤ 70)

/-- Value of one hexadecimal digit. -/
def hexNat (c : Char) : Nat :=
  if 48 ≤ c.toNat ∧ c.toNat ≤ 57 then c.toNat - 48
  else if 97 ≤ c.toNat ∧ c.toNat ≤ 102 then c.toNat - 87
  else if 65 ≤ c.toNat ∧ c.toNat ≤ 70 then c.toNat - 55
  else 0

/-- Rust `u16::from_str_radix(s, 16)`: an optional leading `+`, then one
or more hexadecimal digits and nothing else, value below `2 ^ 16`. -/
def radix16U16 (ds : Str) : Option Nat :=
  let ds2 := if ds.head? = some '+' then ds.tail else ds
  if ds2 = [] ∨ ds2.any (fun c => ¬ isHexDig c) then none
  else
    let v := ds2.foldl (fun a c => a * 16 + hexNat c) 0
    if v < 65536 then some v else none

/-- `unescape` from `json_parser.rs`.  Characters other than backslash
pass through; a backslash consumes the next character per the escape
table; `\u` consumes up to four characters, requires exactly four, radix
parses them as `u16` and converts through `char::from_u32` (which
rejects surrogate code points 0xD800–0xDFFF). -/
def unescape : Str → Except JsonError Str
  | [] => .ok []
  | c :: rest =>
    if c = bslash then
      match rest with
      | [] => .error .InvalidEscape
      | e :: rest2 =>
        if e = dquote then (unescape rest2).map (dquote :: ·)
        else if e = bslash then (unescape rest2).map (bslash :: ·)
        else if e = '/' then (unescape rest2).map ('/' :: ·)
        else if e = 'b' then (unescape rest2).map (bsCh :: ·)
        else if e = 'f' then (unescape rest2).map (ffCh :: ·)
        else if e = 'n' then (unescape rest2).map (lfCh :: ·)
        else if e = 'r' then (unescape rest2).map (crCh :: ·)
        else if e = 't' then (unescape rest2).map (tabCh :: ·)
        else if e = 'u' then
          match rest2 with
          | h1 :: h2 :: h3 :: h4 :: rest3 =>
            match radix16U16 [h1, h2, h3, h4] with
            | none => .error .InvalidEscape
            | some cp =>
              if 55296 ≤ cp ∧ cp ≤ 57343 then .error .InvalidEscape
              else (unescape rest3).map (Char.ofNat cp :: ·)
          | _ => .error .InvalidEscape
        else .error .InvalidEscape
    else
      (unescape rest).map (c :: ·)

/-! ## Builder (`json_parser.rs`, Snapshot API and Builder internals) -/

/-- `PathItem` from `json_parser.rs`. -/
inductive PathItem
  | Key (k : Str)
  | Index (i : Nat)
deriving DecidableEq, Repr

/-- `Snapshot` from `json_parser.rs`. -/
inductive Snapshot
  | Partial (path : List PathItem) (value : JsonValue)
  | Complete (value : JsonValue)
deriving Repr

/-- `Frame` from `json_parser.rs`.  `obj`'s map is the `completed`
children; `lastKey` is the pending key. -/
inductive Frame
  | obj (map : List (Str × JsonValue)) (lastKey : Option Str)
  | arr (vec : List JsonValue)
  | str (buf : Str)
  | ident (buf : Str)
  | num (buf : Str)
deriving Repr

/-- `HashMap::insert`: overwrite the binding of `k` in place if present,
otherwise add it. -/
def objInsert (m : List (Str × JsonValue)) (k : Str) (v : JsonValue) :
    List (Str × JsonValue) :=
  match m with
  | [] => [(k, v)]
  | (k', v') :: rest => if k' = k then (k, v) :: rest else (k', v') :: objInsert rest k v

/-- `HashMap::contains_key` on the association-list embedding. -/
def objContains (m : List (Str × JsonValue)) (k : Str) : Bool :=
  m.any (fun p => p.1 = k)

/-- `Builder` from `json_parser.rs`.  `stack` is the Rust `Vec<Frame>`
with the HEAD of the list as the TOP of the stack (the Rust `last()`);
`path` is the Rust `Vec<PathItem>` in Rust order (index 0 first, pushes
and pops at the list's end). -/
structure Builder where
  stack : List Frame
  path : List PathItem
  streaming : Bool
deriving Repr

/-- `Builder::new`. -/
def Builder.new (streaming : Bool) : Builder := ⟨[], [], streaming⟩

/-- `Builder::push_path_for_scalar`. -/
def Builder.pushPathForScalar (b : Builder) : Builder :=
  match b.stack with
  | .arr vec :: _ => { b with path := b.path ++ [.Index vec.length] }
  | .obj _ (some k) :: _ => { b with path := b.path ++ [.Key k] }
  | _ => b

/-- Pop the last path item if any (`if !path.is_empty() { path.pop() }`). -/
def Builder.popPath (b : Builder) : Builder :=
  { b with path := b.path.dropLast }

/-- The base case of `Builder::build_snapshot_from_stack_recursive`:
the last frame on the (bottom-first) stack slice. -/
def snapshotBase : Frame → JsonValue
  | .str buf => .String buf
  | .num buf => .String buf
  | .ident buf => .String buf
  | .obj map lastKey =>
    let m :=
      match lastKey with
      | some key => if objContains map key then map else objInsert map key (.String [])
      | none => map
    .Object m
  | .arr vec => .Array vec

/-- `Builder::build_snapshot_from_stack_recursive`, taking the stack
slice bottom-first (the Rust function walks from index 0 upward).  In
the recursive case the next frame always exists, so the Rust
`frame_idx + 1 < stack.len()` bound tests are identically true and the
scalar-frame arm is the Rust `unreachable!`. -/
def buildSnapshot : List Frame → JsonValue
  | [] => .Null
  | [f] => snapshotBase f
  | f :: rest =>
    let child := buildSnapshot rest
    match f with
    | .obj map lastKey =>
      match lastKey with
      | some key => .Object (objInsert map key child)
      | none =>
        match child with
        | .String ks => if ks = [] then .Object map else .Object (objInsert map ks (.String []))
        | _ => .Object map
    | .arr vec => .Array (vec ++ [child])
    | _ => .Null

/-- `Builder::current_root_json_value_snapshot`. -/
def Builder.currentRoot (b : Builder) : Option JsonValue :=
  if b.stack.isEmpty then none else some (buildSnapshot b.stack.reverse)

/-- The snapshot-and-path logic that closes
`Builder::finish_value_and_maybe_snapshot` once `val` has been attached
to its parent (or wrapped at the root): emit a root `Partial` when
streaming, the dead `Complete` branch when not streaming with an empty
stack, otherwise nothing; pop the scalar's path item in every branch. -/
def Builder.afterAttach (b : Builder) (val : JsonValue) :
    Except JsonError (Option Snapshot × Builder) :=
  let popped :=
    match val with
    | .Object _ => b
    | .Array _ => b
    | _ => b.popPath
  if b.streaming && !b.stack.isEmpty then
    match b.currentRoot with
    | some snapVal => .ok (some (.Partial [] snapVal), popped)
    | none => .ok (none, popped)
  else if !b.streaming && b.stack.isEmpty then
    .ok (some (.Complete val), popped)
  else
    .ok (none, popped)

/-- `Builder::finish_value_and_maybe_snapshot`.  The two coalescing
early returns (`swallow silently` and the merge) skip the snapshot and
path-pop logic, exactly as the Rust `return Ok(None)` lines do. -/
def Builder.finishValue (b : Builder) (val : JsonValue) :
    Except JsonError (Option Snapshot × Builder) :=
  match b.stack with
  | .obj map lastKey :: rest =>
    match lastKey with
    | none => .error .InvalidKey
    | some key =>
      Builder.afterAttach { b with stack := .obj (objInsert map key val) none :: rest } val
  | .arr vec :: rest =>
    match val with
    | .String cur =>
      if trimCommaMatches (rustTrim cur) = [] then
        .ok (none, b)
      else
        match vec.getLast? with
        | some (.String lastS) =>
          if (", ".data).isSuffixOf lastS ∨ (",".data).isSuffixOf lastS then
            let merged := dropRightWhile (fun c => c = ',' ∨ c = ' ') lastS ++ cur
            .ok (none, { b with stack := .arr (vec.dropLast ++ [.String merged]) :: rest })
          else
            Builder.afterAttach { b with stack := .arr (vec ++ [val]) :: rest } val
        | _ =>
          Builder.afterAttach { b with stack := .arr (vec ++ [val]) :: rest } val
    | _ =>
      Builder.afterAttach { b with stack := .arr (vec ++ [val]) :: rest } val
  | _ :: _ => .error .unreachableState
  | [] =>
    Builder.afterAttach { b with stack := [.arr [val]] } val

/-- `Builder::start_container`. -/
def Builder.startContainer (b : Builder) (frame : Frame) : Builder :=
  let b1 :=
    match b.stack with
    | .arr vec :: _ => { b with path := b.path ++ [PathItem.Index vec.length] }
    | .obj _ (some k) :: _ => { b with path := b.path ++ [PathItem.Key k] }
    | _ => b
  { b1 with stack := frame :: b1.stack }

/-- `Builder::finish_container` (the `expect`/`unreachable!` panics on
an empty stack or a scalar top are `unreachableState`). -/
def Builder.finishContainer (b : Builder) : Except JsonError (JsonValue × Builder) :=
  match b.stack with
  | .obj map _ :: rest => .ok (.Object map, Builder.popPath { b with stack := rest })
  | .arr vec :: rest => .ok (.Array vec, Builder.popPath { b with stack := rest })
  | _ => .error .unreachableState

/-- `Builder::parent_wants_key`. -/
def Builder.parentWantsKey (b : Builder) : Bool :=
  match b.stack with
  | .obj _ none :: _ => true
  | _ => false

/-- `Builder::ensure_string_frame` (the Rust body repeats the
`push_path_for_scalar` logic inline). -/
def Builder.ensureStringFrame (b : Builder) : Builder :=
  match b.stack with
  | .str _ :: _ => b
  | _ =>
    let b1 := b.pushPathForScalar
    { b1 with stack := .str [] :: b1.stack }

/-- `Builder::ensure_num_frame`. -/
def Builder.ensureNumFrame (b : Builder) : Builder :=
  match b.stack with
  | .num _ :: _ => b
  | _ =>
    let b1 := b.pushPathForScalar
    { b1 with stack := .num [] :: b1.stack }

/-- `Builder::ensure_ident_frame`. -/
def Builder.ensureIdentFrame (b : Builder) : Builder :=
  match b.stack with
  | .ident _ :: _ => b
  | _ =>
    let b1 := b.pushPathForScalar
    { b1 with stack := .ident [] :: b1.stack }

/-- The scanner event alphabet (spec, section 4.2; the constructors are
the ones consumed by `Builder::feed_event`). -/
inductive Event
  | StartObj
  | EndObj
  | StartArr
  | EndArr
  | StrChunk (s : Str)
  | StrEnd (s : Str)
  | NumberChunk (s : Str)
  | NumberEnd (s : Str)
  | IdentChunk (s : Str)
  | IdentEnd (s : Str)
deriving DecidableEq, Repr

/-- `Builder::feed_event`. -/
def Builder.feedEvent (b : Builder) (ev : Event) :
    Except JsonError (Option Snapshot × Builder) :=
  match ev with
  | .StartObj => .ok (none, b.startContainer (.obj [] none))
  | .StartArr => .ok (none, b.startContainer (.arr []))
  | .EndObj | .EndArr =>
    match b.finishContainer with
    | .error e => .error e
    | .ok (v, b1) => b1.finishValue v
  | .StrChunk chunk =>
    let b1 := b.ensureStringFrame
    match b1.stack with
    | .str buf :: rest =>
      let b2 := { b1 with stack := .str (buf ++ chunk) :: rest }
      if b2.streaming then
        .ok (some (.Partial b2.path (.String (buf ++ chunk))), b2)
      else .ok (none, b2)
    | _ => .ok (none, b1)
  | .StrEnd chunk =>
    -- 1. in an object and still waiting for the key: raw chunk becomes the key
    match b.stack with
    | .obj map none :: rest =>
      .ok (none, { b with stack := .obj map (some chunk) :: rest })
    | .str buf :: rest =>
      -- 2. accumulated StrChunk parts
      match unescape (buf ++ chunk) with
      | .error e => .error e
      | .ok cooked =>
        match rest with
        | .obj map none :: rest2 =>
          .ok (none, { b with stack := .obj map (some cooked) :: rest2 })
        | _ => Builder.finishValue { b with stack := rest } (.String cooked)
    | _ =>
      -- 3. one-shot value
      match unescape chunk with
      | .error e => .error e
      | .ok cooked => Builder.finishValue b.pushPathForScalar (.String cooked)
  | .NumberChunk chunk =>
    let b1 := b.ensureNumFrame
    match b1.stack with
    | .num buf :: rest =>
      let b2 := { b1 with stack := .num (buf ++ chunk) :: rest }
      if b2.streaming then
        .ok (some (.Partial b2.path (.String (buf ++ chunk))), b2)
      else .ok (none, b2)
    | _ => .ok (none, b1)
  | .NumberEnd tok =>
    match b.stack with
    | .num buf :: rest =>
      match parse_number (buf ++ tok) with
      | .error e => .error e
      | .ok num => Builder.finishValue { b with stack := rest } (.Number num)
    | _ =>
      match parse_number tok with
      | .error e => .error e
      | .ok num => Builder.finishValue b.pushPathForScalar (.Number num)
  | .IdentChunk chunk =>
    let b1 := b.ensureIdentFrame
    match b1.stack with
    | .ident buf :: rest =>
      let b2 := { b1 with stack := .ident (buf ++ chunk) :: rest }
      if b2.streaming then
        .ok (some (.Partial b2.path (.String (buf ++ chunk))), b2)
      else .ok (none, b2)
    | _ => .ok (none, b1)
  | .IdentEnd tok =>
    match b.stack with
    | .ident buf :: rest =>
      -- A. continuing an IdentChunk series
      let txt := buf ++ tok
      let b1 := { b with stack := rest }
      match parse_ident txt with
      | some lit => b1.finishValue lit
      | none =>
        if b1.parentWantsKey then
          -- (the Rust keyword-as-key test here is dead: A-1 already returned)
          match b1.stack with
          | .obj map none :: rest2 =>
            .ok (none, { b1 with stack := .obj map (some txt) :: rest2 })
          | _ => .ok (none, b1)
        else
          b1.finishValue (.String (squash_ws txt))
    | _ =>
      -- B. one-shot identifier
      if b.parentWantsKey then
        match parse_ident tok with
        | some _ => .error .InvalidKey
        | none =>
          match b.stack with
          | .obj map none :: rest2 =>
            .ok (none, { b with stack := .obj map (some tok) :: rest2 })
          | _ => .ok (none, b)
      else
        let val := (parse_ident tok).getD (.String tok)
        Builder.finishValue b.pushPathForScalar val

/-- `Builder::finish`. -/
def Builder.finish (b : Builder) (streaming : Bool) : Except JsonError JsonValue :=
  match b.stack with
  | [] => .ok .Null
  | [f] =>
    match f with
    | .arr vec =>
      match vec with
      | [v] => .ok v
      | _ => .ok (.Array vec)
    | .obj map _ => .ok (.Object map)
    | .str buf => (unescape buf).map .String
    | .num buf => (parse_number buf).map .Number
    | .ident buf => .ok ((parse_ident buf).getD .Null)
  | _ =>
    if streaming then .ok (buildSnapshot b.stack.reverse)
    else .error .UnexpectedEof

/-! ## Scanner

Modelled from the spec: `json_sax_scanner.rs` is not among the source
files, so the SAX lexer is reconstructed from the specification, section
4.2 — lexer states Outer / InString / InIdent / InNumber with escape
sub-states, chunked scalar events at the end of the input buffer,
`NeedMore` when the buffer is exhausted, structural separators (`,`,
`:`, whitespace) consumed silently, keys and string values quoted with
`"` or `'`, bare identifiers `[A-Za-z_][A-Za-z0-9_]*`, numbers built
from sign/digits/dot/exponent characters, `UnexpectedChar` otherwise.
Scalar fragments carry the raw text (escapes are decoded only by the
builder at `StrEnd`). -/

/-- Escape sub-state inside a string (spec: InEscape, InUnicodeEscape
with a 0–4 hex-digit counter). -/
inductive EscSt
  | plain
  | afterBs
  | uni (k : Nat)
deriving DecidableEq, Repr

/-- Lexer state (spec: Outer, InString, InIdent, InNumber). -/
inductive LexMode
  | outer
  | inStr (q : Char) (esc : EscSt)
  | inNum
  | inIdent
deriving DecidableEq, Repr

/-- `Step` of the scanner (spec: `Event(e) | NeedMore | Error(kind)`). -/
inductive ScanStep
  | Ev (e : Event)
  | NeedMore
  | Err (e : JsonError)
deriving Repr

/-- Modelled from the spec: the scanner's state — carry-over buffer,
lexer state, and the raw fragment accumulated since the last event. -/
structure Scanner where
  buf : Str
  mode : LexMode
  tok : Str
deriving Repr

/-- `Scanner::new`. -/
def Scanner.new : Scanner := ⟨[], .outer, []⟩

/-- `Scanner::push`: append the chunk to the carry-over buffer. -/
def Scanner.push (sc : Scanner) (s : Str) : Scanner := { sc with buf := sc.buf ++ s }

/-- Characters that may continue a number token. -/
def isNumCont (c : Char) : Bool :=
  c.isDigit ∨ c = '.' ∨ c = 'e' ∨ c = 'E' ∨ c = '+' ∨ c = '-'

/-- Characters that may start a bare identifier. -/
def isIdentStart (c : Char) : Bool := c.isAlpha ∨ c = '_'

/-- Characters that may continue a bare identifier. -/
def isIdentCont (c : Char) : Bool := c.isAlpha ∨ c.isDigit ∨ c = '_'

/-- The chunk event matching a scalar lexer mode. -/
def chunkEv (mode : LexMode) (tok : Str) : Event :=
  match mode with
  | .inStr _ _ => .StrChunk tok
  | .inNum => .NumberChunk tok
  | .inIdent => .IdentChunk tok
  | .outer => .StrChunk tok

/-- Modelled from the spec: one cooperative step of the lexer.  Consumes
buffered characters until an event, an error, or `NeedMore` at buffer
end; a scalar interrupted by the end of the buffer is flushed as a chunk
event; a scalar terminated by a delimiter emits its end event and leaves
the delimiter in the buffer for the next step. -/
def scanGo (mode : LexMode) (tok : Str) : Str → ScanStep × Scanner
  | [] =>
    match mode with
    | .outer => (.NeedMore, ⟨[], mode, tok⟩)
    | m =>
      if tok = [] then (.NeedMore, ⟨[], m, tok⟩)
      else (.Ev (chunkEv m tok), ⟨[], m, []⟩)
  | c :: rest =>
    match mode with
    | .outer =>
      if c = '{' then (.Ev .StartObj, ⟨rest, .outer, []⟩)
      else if c = '}' then (.Ev .EndObj, ⟨rest, .outer, []⟩)
      else if c = '[' then (.Ev .StartArr, ⟨rest, .outer, []⟩)
      else if c = ']' then (.Ev .EndArr, ⟨rest, .outer, []⟩)
      else if c = dquote ∨ c = squote then scanGo (.inStr c .plain) [] rest
      else if isWsChar c ∨ c = ',' ∨ c = ':' then scanGo .outer [] rest
      else if isNumCont c then scanGo .inNum [c] rest
      else if isIdentStart c then scanGo .inIdent [c] rest
      else (.Err (.UnexpectedChar c), ⟨rest, .outer, []⟩)
    | .inNum =>
      if isNumCont c then scanGo .inNum (tok ++ [c]) rest
      else (.Ev (.NumberEnd tok), ⟨c :: rest, .outer, []⟩)
    | .inIdent =>
      if isIdentCont c then scanGo .inIdent (tok ++ [c]) rest
      else (.Ev (.IdentEnd tok), ⟨c :: rest, .outer, []⟩)
    | .inStr q esc =>
      match esc with
      | .afterBs => scanGo (.inStr q (if c = 'u' then .uni 0 else .plain)) (tok ++ [c]) rest
      | .uni k =>
        if isHexDig c ∧ k < 3 then scanGo (.inStr q (.uni (k + 1))) (tok ++ [c]) rest
        else if isHexDig c then scanGo (.inStr q .plain) (tok ++ [c]) rest
        else
          -- a non-hex character ends the escape; process it as a plain char
          if c = q then (.Ev (.StrEnd tok), ⟨rest, .outer, []⟩)
          else if c = bslash then scanGo (.inStr q .afterBs) (tok ++ [c]) rest
          else scanGo (.inStr q .plain) (tok ++ [c]) rest
      | .plain =>
        if c = q then (.Ev (.StrEnd tok), ⟨rest, .outer, []⟩)
        else if c = bslash then scanGo (.inStr q .afterBs) (tok ++ [c]) rest
        else scanGo (.inStr q .plain) (tok ++ [c]) rest

/-- `Scanner::next_step`. -/
def Scanner.nextStep (sc : Scanner) : ScanStep × Scanner :=
  scanGo sc.mode sc.tok sc.buf

/-- Modelled from the spec:
`Scanner::reset_tok_buf_and_lexer_state_if_mid_scalar`, called by
`Parser::parse` after finishing at `NeedMore`.  Known only through its
name and call site; mid-number and mid-identifier states are reset to
Outer (their fragments were already flushed as chunk events), while
mid-string state must survive so that a string split across `step`
calls keeps scanning as a string. -/
def Scanner.resetIfMidScalar (sc : Scanner) : Scanner :=
  match sc.mode with
  | .inNum => { sc with mode := .outer, tok := [] }
  | .inIdent => { sc with mode := .outer, tok := [] }
  | _ => sc

/-! ## Parser (`json_parser.rs`, legacy Parser shim) -/

/-- `Parser` from `json_parser.rs`. -/
structure Parser where
  scanner : Scanner
  builder : Builder
  buf : Str
  streaming : Bool
deriving Repr

/-- `Parser::new`. -/
def Parser.new (streaming : Bool) : Parser :=
  ⟨Scanner.new, Builder.new streaming, [], streaming⟩

/-- The event loop of `Parser::parse`, with explicit fuel.  Every
iteration strictly shrinks the measure `2 * buffer length + flags` of
the scanner state, so the fuel chosen by `Parser.parse` is never
exhausted (the exhaustion arm returns `UnexpectedEof` and is dead). -/
def parseLoop : Nat → Parser → Except JsonError (JsonValue × Parser)
  | 0, _ => .error .UnexpectedEof
  | fuel + 1, p =>
    match p.scanner.nextStep with
    | (.Ev ev, sc') =>
      match p.builder.feedEvent ev with
      | .error e => .error e
      | .ok (some (.Partial _ _), b') =>
        let p' := { p with scanner := sc', builder := b' }
        match b'.currentRoot with
        | some rootVal => .ok (rootVal, p')
        | none => parseLoop fuel p'
      | .ok (some (.Complete v), b') => .ok (v, { p with scanner := sc', builder := b' })
      | .ok (none, b') => parseLoop fuel { p with scanner := sc', builder := b' }
    | (.NeedMore, sc') =>
      match p.builder.finish p.streaming with
      | .error e => .error e
      | .ok v => .ok (v, { p with scanner := sc'.resetIfMidScalar })
    | (.Err e, _) => .error e

/-- `Parser::parse` (the `Vec<u8>` argument is UTF-8 text in this
embedding, so `String::from_utf8` is the identity). -/
def Parser.parse (p : Parser) (part : Str) : Except JsonError (JsonValue × Parser) :=
  let p1 := { p with buf := p.buf ++ part, scanner := p.scanner.push part }
  parseLoop (2 * p1.scanner.buf.length + 8) p1

/-- The value returned by a fresh non-streaming `Parser::parse` call —
the auxiliary non-streaming entry point of the spec, section 6. -/
def parseValue (s : Str) : Except JsonError JsonValue :=
  ((Parser.new false).parse s).map Prod.fst

/-! ## TagFinder (`tag_finder.rs`) -/

/-- `TagEvent` from `tag_finder.rs`. -/
inductive TagEvent
  | Open (name : Str)
  | Bytes (payload : Str)
  | Close (name : Str)
deriving DecidableEq, Repr

/-- `TagFinder` from `tag_finder.rs`.  `wanted` and `ignored` hold the
lowercased names (`HashSet<String>` becomes a list queried by
membership). -/
structure TagFinder where
  buf : Str
  inside : Bool
  wanted : List Str
  ignored : List Str
  insideIgnored : Bool
  ignoredDepth : Nat
deriving Repr

/-- `TagFinder::new` / `Default`. -/
def TagFinder.new : TagFinder := ⟨[], false, [], [], false, 0⟩

/-- `TagFinder::new_with_filter`: store lowercase versions for
case-insensitive matching. -/
def TagFinder.newWithFilter (wanted ignored : List Str) : TagFinder :=
  ⟨[], false, wanted.map (·.map Char.toLower), ignored.map (·.map Char.toLower), false, 0⟩

/-- A concrete scanner configuration: inside the wanted region of tag
`outer`, with ignored set containing `ign`, the buffer holding the
complete non-wanted, non-ignored tag `<Other>` followed by the payload
character `x`. -/
def tfVerbatimSample : TagFinder :=
  { buf := ("<Other>x".data), inside := true, wanted := [("outer".data)],
    ignored := [("ign".data)], insideIgnored := false, ignoredDepth := 0 }

/-- The leading-payload emission of the `TagFinder::push` loop:
everything before the next `<` is payload, emitted iff inside a wanted
region and not inside an ignored one (annotated with `inside_ignored`
at emission, see `tfRun`). -/
def tfLead (tf : TagFinder) (pre : Str) : List (TagEvent × Bool) :=
  if tf.inside && !tf.insideIgnored && !pre.isEmpty then
    [(.Bytes pre, tf.insideIgnored)]
  else []

/-- The name of a tag, from its body between `<` and `>`: a leading `/`
marks a close and is dropped; the name is the first
whitespace-separated token. -/
def tagName (body : Str) : Str :=
  let isClose : Bool := body.head? = some '/'
  let namePart := if isClose then body.drop 1 else body
  ((splitWs namePart).head?).getD []

/-- The `Open`/`Close` emission of one processed tag (the ignored
branches emit nothing; wanted tags emit unless inside an ignored
region). -/
def tfEmit (tf : TagFinder) (isClose isIgnored isWanted : Bool) (name : Str) :
    List (TagEvent × Bool) :=
  if !isClose then
    if isIgnored then []
    else if isWanted && !tf.insideIgnored then [(.Open name, tf.insideIgnored)]
    else []
  else
    if isIgnored && tf.insideIgnored then []
    else if isWanted && !tf.insideIgnored then [(.Close name, tf.insideIgnored)]
    else []

/-- The state transition of one processed tag: entering an ignored tag
increments the depth, a matching close decrements it (clearing the flag
at zero), a wanted open/close toggles `inside`. -/
def tfTagState (tf : TagFinder) (isClose isIgnored isWanted : Bool) : TagFinder :=
  if !isClose then
    if isIgnored then
      { tf with insideIgnored := true, ignoredDepth := tf.ignoredDepth + 1 }
    else if isWanted && !tf.insideIgnored then { tf with inside := true }
    else tf
  else
    if isIgnored && tf.insideIgnored then
      { tf with ignoredDepth := tf.ignoredDepth - 1
                insideIgnored := if tf.ignoredDepth - 1 = 0 then false else tf.insideIgnored }
    else if isWanted && !tf.insideIgnored then { tf with inside := false }
    else tf

/-- Tag classification: a tag is wanted if the wanted set is empty and
it is not ignored, or if the wanted set contains its name. -/
def tfIsWanted (tf : TagFinder) (isIgnored : Bool) (nameLower : Str) : Bool :=
  if tf.wanted.isEmpty then !isIgnored else tf.wanted.contains nameLower

/-- Processing of one complete tag whose body (between `<` and `>`) is
`body`: either the verbatim nested-tag payload emission, or the
open/close handling with its state transition.  The buffer is not
touched here. -/
def tfTagStep (tf : TagFinder) (body : Str) : List (TagEvent × Bool) × TagFinder :=
  let isClose : Bool := body.head? = some '/'
  let isIgnored := tf.ignored.contains ((tagName body).map Char.toLower)
  let isWanted := tfIsWanted tf isIgnored ((tagName body).map Char.toLower)
  if tf.inside && !tf.insideIgnored && !isWanted && !isIgnored then
    ([(TagEvent.Bytes ('<' :: (body ++ ['>'])), tf.insideIgnored)], tf)
  else
    (tfEmit tf isClose isIgnored isWanted (tagName body),
      tfTagState tf isClose isIgnored isWanted)

/-- The scanning loop of `TagFinder::push`, with explicit fuel (each
iteration consumes at least the `<` and `>` of one tag, so the fuel
chosen by `TagFinder.push` is never exhausted).  Each emitted event is
paired with the value of `inside_ignored` at the moment of emission —
ghost data used only by the theorems; `TagFinder.push` projects it
away. -/
def tfRun : Nat → TagFinder → List (TagEvent × Bool) × TagFinder
  | 0, tf => ([], tf)
  | fuel + 1, tf =>
    match tf.buf.dropWhile (fun c => c ≠ '<') with
    | [] =>
      -- no '<' in the buffer: the loop breaks and the tail is handled
      if tf.inside && !tf.insideIgnored && !(tf.buf.takeWhile (fun c => c ≠ '<')).isEmpty then
        ([(.Bytes (tf.buf.takeWhile (fun c => c ≠ '<')), tf.insideIgnored)],
          { tf with buf := [] })
      else
        ([],
          { tf with
            buf := (tf.buf.takeWhile (fun c => c ≠ '<')).drop ((tf.buf.takeWhile (fun c => c ≠ '<')).length - min (tf.buf.takeWhile (fun c => c ≠ '<')).length 200) })
    | _ :: tagRest =>
      match tagRest.dropWhile (fun c => c ≠ '>') with
      | [] =>
        -- tag split across chunks: emit the payload before the '<',
        -- keep from the '<' onward, return
        (tfLead tf (tf.buf.takeWhile (fun c => c ≠ '<')),
          { tf with buf := tf.buf.dropWhile (fun c => c ≠ '<') })
      | _ :: rest2 =>
        (tfLead tf (tf.buf.takeWhile (fun c => c ≠ '<')) ++
            (tfTagStep tf (tagRest.takeWhile (fun c => c ≠ '>'))).1 ++
            (tfRun fuel
              { (tfTagStep tf (tagRest.takeWhile (fun c => c ≠ '>'))).2 with buf := rest2 }).1,
          (tfRun fuel
            { (tfTagStep tf (tagRest.takeWhile (fun c => c ≠ '>'))).2 with buf := rest2 }).2)

/-- `TagFinder::push`, returning the annotated events (see `tfRun`) and
the updated finder. -/
def TagFinder.push (tf : TagFinder) (chunk : Str) : List (TagEvent × Bool) × TagFinder :=
  let st := { tf with buf := tf.buf ++ chunk }
  tfRun (st.buf.length + 1) st

/-- The plain event trace of `TagFinder::push`. -/
def TagFinder.pushEvents (tf : TagFinder) (chunk : Str) : List TagEvent :=
  (tf.push chunk).1.map Prod.fst

/-! ## StreamParser (`json_parser.rs`, stream wrapper) -/

/-- `StreamParser` from `json_parser.rs`. -/
structure StreamParser where
  tagger : TagFinder
  capturing : Bool
  inner : Parser
  done : Bool
  wanted : List Str
  ignored : List Str
deriving Repr

/-- `StreamParser::new`: the tag finder receives the original-case tags
(and lowercases them itself); the stream parser's own sets are
lowercased copies. -/
def StreamParser.new (tags ignored : List Str) : StreamParser :=
  { tagger := TagFinder.newWithFilter tags ignored,
    wanted := tags.map (·.map Char.toLower),
    ignored := ignored.map (·.map Char.toLower),
    inner := Parser.new true,
    done := false,
    capturing := false }

/-- `StreamParser::is_done`. -/
def StreamParser.isDone (sp : StreamParser) : Bool := sp.done

/-- The scanner-draining loop in the `Close` arm of
`StreamParser::step` (fuel as in `parseLoop`). -/
def flushScanner : Nat → Parser → Except JsonError Parser
  | 0, _ => .error .UnexpectedEof
  | fuel + 1, p =>
    match p.scanner.nextStep with
    | (.Ev ev, sc') =>
      match p.builder.feedEvent ev with
      | .error e => .error e
      | .ok (_, b') => flushScanner fuel { p with scanner := sc', builder := b' }
    | (.NeedMore, sc') => .ok { p with scanner := sc' }
    | (.Err e, _) => .error e

/-- The handler closure of `StreamParser::step`, folded over the tag
events (the tag scan itself never reads the handler's state, so running
it first and folding after is equivalent on every error-free
execution; on an error the `?` aborts `step` with the same error). -/
def stepGo :
    List TagEvent → StreamParser → Option JsonValue →
      Except JsonError (Option JsonValue × StreamParser)
  | [], sp, latest => .ok (latest, sp)
  | ev :: evs, sp, latest =>
    match ev with
    | .Open name =>
      let nl := name.map Char.toLower
      let cap := sp.wanted.isEmpty || sp.wanted.contains nl
      let sp' := { sp with capturing := cap,
                           inner := if cap then Parser.new true else sp.inner }
      stepGo evs sp' latest
    | .Bytes bytes =>
      if sp.capturing then
        match sp.inner.parse bytes with
        | .error e => .error e
        | .ok (v, inner') =>
          let latest' :=
            match v with
            | .Array arr => if arr.length = 1 then arr.head? else some (.Array arr)
            | v' => some v'
          stepGo evs { sp with inner := inner' } latest'
      else stepGo evs sp latest
    | .Close name =>
      let nl := name.map Char.toLower
      let isWanted := sp.wanted.isEmpty || sp.wanted.contains nl
      if sp.capturing && isWanted then
        match flushScanner (2 * sp.inner.scanner.buf.length + 8) sp.inner with
        | .error e => .error e
        | .ok inner' =>
          match inner'.builder.finish true with
          | .error e => .error e
          | .ok v =>
            stepGo evs { sp with inner := inner', done := true, capturing := false } (some v)
      else stepGo evs sp latest

/-- `StreamParser::step`. -/
def StreamParser.step (sp : StreamParser) (chunk : Str) :
    Except JsonError (Option JsonValue × StreamParser) :=
  if sp.done then .ok (none, sp)
  else
    let pr := sp.tagger.push chunk
    stepGo (pr.1.map Prod.fst) { sp with tagger := pr.2 } none

/-! ## Strict reference JSON parser

Written from the spec's words ("a strict reference parser", section 8):
an RFC-8259-style recursive-descent parser, used only to compare the
streaming pipeline's output with the strict reading of a JSON text. -/

/-- Skip strict-JSON whitespace. -/
def refSkip (s : Str) : Str := s.dropWhile isWsChar

/-- Strict string body after the opening quote: returns the decoded
content and the remainder after the closing quote. -/
def refStrBody : Str → Option (Str × Str)
  | [] => none
  | c :: rest =>
    if c = dquote then some ([], rest)
    else if c = bslash then
      match rest with
      | [] => none
      | e :: rest2 =>
        if e = dquote then (refStrBody rest2).map (fun p => (dquote :: p.1, p.2))
        else if e = bslash then (refStrBody rest2).map (fun p => (bslash :: p.1, p.2))
        else if e = '/' then (refStrBody rest2).map (fun p => ('/' :: p.1, p.2))
        else if e = 'b' then (refStrBody rest2).map (fun p => (bsCh :: p.1, p.2))
        else if e = 'f' then (refStrBody rest2).map (fun p => (ffCh :: p.1, p.2))
        else if e = 'n' then (refStrBody rest2).map (fun p => (lfCh :: p.1, p.2))
        else if e = 'r' then (refStrBody rest2).map (fun p => (crCh :: p.1, p.2))
        else if e = 't' then (refStrBody rest2).map (fun p => (tabCh :: p.1, p.2))
        else if e = 'u' then
          match rest2 with
          | h1 :: h2 :: h3 :: h4 :: rest3 =>
            if isHexDig h1 ∧ isHexDig h2 ∧ isHexDig h3 ∧ isHexDig h4 then
              let v := ((hexNat h1 * 16 + hexNat h2) * 16 + hexNat h3) * 16 + hexNat h4
              if 55296 ≤ v ∧ v ≤ 57343 then none
              else (refStrBody rest3).map (fun p => (Char.ofNat v :: p.1, p.2))
            else none
          | _ => none
        else none
    else (refStrBody rest).map (fun p => (c :: p.1, p.2))

/-- Exponent part of a strict number, starting at the `e`/`E`. -/
def refNumberExp (sgn mant : ℚ) : Str → Option (JsonValue × Str)
  | _ :: rr =>
    let ep : Int × Str := match rr with
      | '+' :: q => (1, q)
      | '-' :: q => (-1, q)
      | q => (1, q)
    let eds := ep.2.takeWhile Char.isDigit
    if eds = [] then none
    else some (.Number (.Float (sgn * mant * (10 : ℚ) ^ (ep.1 * (digitsVal eds : Int)))),
      ep.2.dropWhile Char.isDigit)
  | [] => none

/-- Strict number: `-?(0|[1-9][0-9]*)(\.[0-9]+)?([eE][+-]?[0-9]+)?`,
yielding `Integer` when neither fraction nor exponent is present. -/
def refNumber (s : Str) : Option (JsonValue × Str) :=
  let sp : Bool × Str := match s with
    | '-' :: r => (true, r)
    | r => (false, r)
  let ids := sp.2.takeWhile Char.isDigit
  let s2 := sp.2.dropWhile Char.isDigit
  if ids = [] then none
  else if 1 < ids.length ∧ ids.head? = some '0' then none
  else
    let sgn : ℚ := if sp.1 then -1 else 1
    let fp : Option Str × Str :=
      match s2 with
      | '.' :: rr =>
        let f := rr.takeWhile Char.isDigit
        if f = [] then (none, s2) else (some f, rr.dropWhile Char.isDigit)
      | r2 => (none, r2)
    match fp.1 with
    | none =>
      match fp.2 with
      | 'e' :: _ | 'E' :: _ =>
        -- exponent on an integer mantissa: parse as float
        refNumberExp sgn ((digitsVal ids : ℚ)) fp.2
      | r3 =>
        some (.Number (.Integer ((if sp.1 then -1 else 1) * (digitsVal ids : Int))), r3)
    | some f =>
      let mant : ℚ := (digitsVal ids : ℚ) + (digitsVal f : ℚ) / ((10 : ℚ) ^ f.length)
      match fp.2 with
      | 'e' :: _ | 'E' :: _ => refNumberExp sgn mant fp.2
      | r3 => some (.Number (.Float (sgn * mant)), r3)

mutual

/-- Strict value (fuel decreases on every recursive call; the fuel
chosen by `refParse` covers any input since every value, array item and
object member consumes at least one character). -/
def refValue : Nat → Str → Option (JsonValue × Str)
  | 0, _ => none
  | fuel + 1, s0 =>
    match refSkip s0 with
    | [] => none
    | c :: rest =>
      if c = dquote then (refStrBody rest).map (fun p => (.String p.1, p.2))
      else if c = '{' then refObjItems fuel (refSkip rest) []
      else if c = '[' then refArrItems fuel (refSkip rest) []
      else if c = 't' then
        if rest.take 3 = ("rue".data) then some (.Boolean true, rest.drop 3) else none
      else if c = 'f' then
        if rest.take 4 = ("alse".data) then some (.Boolean false, rest.drop 4) else none
      else if c = 'n' then
        if rest.take 3 = ("ull".data) then some (.Null, rest.drop 3) else none
      else refNumber (c :: rest)

/-- Strict array items, after `[` (with whitespace skipped); `acc` holds
the items already parsed, in order. -/
def refArrItems : Nat → Str → List JsonValue → Option (JsonValue × Str)
  | 0, _, _ => none
  | fuel + 1, s, acc =>
    match s with
    | ']' :: rest => if acc.isEmpty then some (.Array [], rest) else none
    | _ =>
      match refValue fuel s with
      | none => none
      | some (v, s1) =>
        match refSkip s1 with
        | ',' :: s2 => refArrItems fuel (refSkip s2) (acc ++ [v])
        | ']' :: s2 => some (.Array (acc ++ [v]), s2)
        | _ => none

/-- Strict object members, after `{` (with whitespace skipped). -/
def refObjItems : Nat → Str → List (Str × JsonValue) → Option (JsonValue × Str)
  | 0, _, _ => none
  | fuel + 1, s, acc =>
    match s with
    | '}' :: rest => if acc.isEmpty then some (.Object [], rest) else none
    | c :: rest =>
      if c = dquote then
        match refStrBody rest with
        | none => none
        | some (k, s1) =>
          match refSkip s1 with
          | ':' :: s2 =>
            match refValue fuel (refSkip s2) with
            | none => none
            | some (v, s3) =>
              match refSkip s3 with
              | ',' :: s4 => refObjItems fuel (refSkip s4) (objInsert acc k v)
              | '}' :: s4 => some (.Object (objInsert acc k v), s4)
              | _ => none
          | _ => none
      else none
    | [] => none

end

/-- The strict reference parse of a whole text: one value surrounded by
nothing but whitespace. -/
def refParse (s : Str) : Option JsonValue :=
  match refValue (s.length + 1) s with
  | some (v, rest) => if refSkip rest = [] then some v else none
  | none => none

/-! ## Auxiliary definitions for the claim statements -/

/-- The code unit denoted by four hexadecimal digits. -/
def hexQuad (h1 h2 h3 h4 : Char) : Nat :=
  ((hexNat h1 * 16 + hexNat h2) * 16 + hexNat h3) * 16 + hexNat h4

/-! ## Helper lemmas -/

theorem hexNat_lt_16 (c : Char) : hexNat c < 16 := by
  unfold hexNat
  split <;> first
  | omega
  | (split <;> first | omega | (split <;> omega))

theorem radix16U16_of_hex (h1 h2 h3 h4 : Char)
    (g1 : isHexDig h1 = true) (g2 : isHexDig h2 = true)
    (g3 : isHexDig h3 = true) (g4 : isHexDig h4 = true) :
    radix16U16 [h1, h2, h3, h4] = some (hexQuad h1 h2 h3 h4) := by
  have hne : h1 ≠ '+' := by
    intro h
    rw [h] at g1
    exact absurd g1 (by decide)
  have b1 := hexNat_lt_16 h1
  have b2 := hexNat_lt_16 h2
  have b3 := hexNat_lt_16 h3
  have b4 := hexNat_lt_16 h4
  unfold radix16U16
  simp only [List.head?_cons, Option.some.injEq, hne, if_false, List.any_cons,
    List.any_nil, g1, g2, g3, g4, List.foldl]
  have hlt : ((0 * 16 + hexNat h1) * 16 + hexNat h2) * 16 * 16 + hexNat h3 * 16 + hexNat h4 <
      65536 := by omega
  simp only [decide_not, List.any_cons, List.any_nil]
  rw [if_neg, if_pos]
  · unfold hexQuad
    congr 1
    omega
  · show ((((0 * 16 + hexNat h1) * 16 + hexNat h2) * 16 + hexNat h3) * 16 + hexNat h4) < 65536
    omega
  · simp [g1, g2, g3, g4]

theorem head?_dropWhile_false (p : Char → Bool) :
    ∀ (l : Str) (a : Char), (l.dropWhile p).head? = some a → p a = false := by
  intro l
  induction l with
  | nil => intro a h; simp [List.dropWhile] at h
  | cons c rest ih =>
    intro a h
    by_cases hc : p c
    · rw [List.dropWhile_cons_of_pos hc] at h
      exact ih a h
    · rw [List.dropWhile_cons_of_neg hc] at h
      simp only [List.head?_cons, Option.some.injEq] at h
      subst h
      simpa using hc

theorem dropRightWhile_decomp (p : Char → Bool) (s : Str) :
    s = dropRightWhile p s ++ (s.reverse.takeWhile p).reverse ∧
      (∀ c ∈ (s.reverse.takeWhile p).reverse, p c = true) ∧
      (∀ c, (dropRightWhile p s).getLast? = some c → p c = false) := by
  refine ⟨?_, ?_, ?_⟩
  · have h := List.takeWhile_append_dropWhile (p := p) (l := s.reverse)
    calc s = s.reverse.reverse := (s.reverse_reverse).symm
      _ = (s.reverse.takeWhile p ++ s.reverse.dropWhile p).reverse := by rw [h]
      _ = (s.reverse.dropWhile p).reverse ++ (s.reverse.takeWhile p).reverse := by
          rw [List.reverse_append]
      _ = dropRightWhile p s ++ (s.reverse.takeWhile p).reverse := rfl
  · intro c hc
    rw [List.mem_reverse] at hc
    exact List.mem_takeWhile_imp hc
  · intro c hc
    unfold dropRightWhile at hc
    rw [List.getLast?_reverse] at hc
    exact head?_dropWhile_false p _ c hc

/-! ## Claim theorems -/

/-- C1.  The round-trip-over-chunking property fails on the code: for
the valid strict JSON text `J = ["a,", "b"]` fed as the single chunk
`<T>J</T>` to a `StreamParser` with wanted set `\x7bT\x7d`, the stream
finishes (`is_done` is true) but the final value is `["ab"]` — the
split-string coalescing glued the two elements — while the strict
reference parse of `J` is `["a,", "b"]`.  Both values are free of
numbers, so the "modulo floating-point precision" allowance cannot
reconcile them. -/
theorem c1_roundtrip_violated :
    ((StreamParser.new [("T".data)] []).step ("<T>[\"a,\", \"b\"]</T>".data)).map
        (fun r => (r.1, r.2.done)) =
      .ok (some (.Array [.String ("ab".data)]), true) ∧
    refParse ("[\"a,\", \"b\"]".data) =
      some (.Array [.String ("a,".data), .String ("b".data)]) ∧
    (JsonValue.Array [.String ("ab".data)] ≠
      .Array [.String ("a,".data), .String ("b".data)]) := by
  refine ⟨rfl, rfl, ?_⟩
  intro h
  have : ([JsonValue.String ("ab".data)]).length =
      ([JsonValue.String ("a,".data), .String ("b".data)]).length := by
    rw [JsonValue.Array.injEq] at h
    rw [h]
  simp at this

/-- C9.  Once `is_done()` is true, `step` returns `Ok(None)` for every
chunk and the stream parser — all observable components included — is
returned unchanged. -/
theorem c9_done_idempotent (sp : StreamParser) (chunk : Str) (h : sp.done = true) :
    sp.step chunk = .ok (none, sp) := by
  unfold StreamParser.step
  rw [h]
  rfl

/-- Witness for C9 at a concrete finished stream parser. -/
theorem c9_witness :
    ({ StreamParser.new [("T".data)] [] with done := true }).step ("more".data) =
      .ok (none, { StreamParser.new [("T".data)] [] with done := true }) :=
  c9_done_idempotent _ _ rfl

/-- C4, counterexample.  For the collected buffer `1x.` the code strips
the trailing `.` and reports `InvalidNumber("1x")` — the cooked text,
not the raw collected text `1x.` the claim requires.  And for the
buffer `.` the code first prefixes `0` and only then strips, producing
`Ok(Integer 0)`, whereas stripping the raw buffer first (as the claim
orders the steps) would leave the empty string and fail. -/
theorem c4_counterexample :
    parse_number ("1x.".data) = .error (.InvalidNumber ("1x".data)) ∧
    ("1x".data) ≠ ("1x.".data) ∧
    parse_number (".".data) = .ok (.Integer 0) :=
  ⟨rfl, by decide, rfl⟩

/-- C4 (amended).  Finalising a number first prefixes `0` when the raw
buffer starts with `.`, `-.` or `+.`, THEN strips a (maximal) trailing
run of characters from the strip set, parses the remainder as a float
exactly when it still contains `.`, `e` or `E` and as a 64-bit signed
integer otherwise, and reports a failed parse as `InvalidNumber`
carrying the cooked (prefixed and stripped) text.  The stripping is
characterised declaratively: the prefixed buffer splits as
`cooked ++ t` with `t` made of strip characters only and `cooked` not
ending in one. -/
theorem c4_amended (raw : Str) :
    ∃ cooked t,
      (if raw.head? = some '.' ∨ raw.take 2 = ['-', '.'] ∨ raw.take 2 = ['+', '.'] then
          '0' :: raw else raw) = cooked ++ t ∧
      (∀ c ∈ t, isNumStripChar c = true) ∧
      (∀ c, cooked.getLast? = some c → isNumStripChar c = false) ∧
      parse_number raw =
        (if cooked.any (fun c => c = '.' ∨ c = 'e' ∨ c = 'E') then
          match rustParseF64 cooked with
          | some q => .ok (.Float q)
          | none => .error (.InvalidNumber cooked)
        else
          match rustParseI64 cooked with
          | some i => .ok (.Integer i)
          | none => .error (.InvalidNumber cooked)) := by
  obtain ⟨h1, h2, h3⟩ := dropRightWhile_decomp isNumStripChar
    (if raw.head? = some '.' ∨ raw.take 2 = ['-', '.'] ∨ raw.take 2 = ['+', '.'] then
      '0' :: raw else raw)
  exact ⟨_, _, h1, h2, h3, rfl⟩

/-- C2, counterexample.  The claim says every root-level value completed
after the first is appended to the implicit array.  Completing the
string value `b` at the root when the implicit array's last element is
the string `a,` does not append: the split-string coalescing strips the
trailing comma and glues, leaving a one-element array `["ab"]` instead
of the two-element `["a,", "b"]`. -/
theorem c2_counterexample :
    (Builder.feedEvent ⟨[.arr [.String ("a,".data)]], [], false⟩ (.StrEnd ("b".data))) =
      .ok (none, ⟨[.arr [.String ("ab".data)]], [PathItem.Index 1], false⟩) ∧
    ([JsonValue.String ("ab".data)]).length ≠
      ([JsonValue.String ("a,".data), .String ("b".data)]).length :=
  ⟨rfl, by decide⟩

/-- C2 (amended).  A value completing on an empty stack is wrapped into
an `Array` frame kept on the stack; a subsequently completed root-level
value that is not a string is appended to that array; string values are
subject to the split-string coalescing of the code (see C3); and the
non-streaming parse of the untagged text
`\x7b"message": 123\x7d\x7b"code": 404\x7d` returns the two objects in
order inside the implicit array. -/
theorem c2_amended :
    (∀ (b : Builder) (val : JsonValue), b.stack = [] →
      ∃ snap b', b.finishValue val = .ok (snap, b') ∧ b'.stack = [.arr [val]]) ∧
    (∀ (b : Builder) vec rest (val : JsonValue), b.stack = .arr vec :: rest →
      (∀ s, val ≠ .String s) →
      ∃ snap b', b.finishValue val = .ok (snap, b') ∧
        b'.stack = .arr (vec ++ [val]) :: rest) ∧
    parseValue ("\x7b\"message\": 123\x7d\x7b\"code\": 404\x7d".data) =
      .ok (.Array [.Object [(("message".data), .Number (.Integer 123))],
        .Object [(("code".data), .Number (.Integer 404))]]) := by
  refine ⟨?_, ?_, rfl⟩
  · rintro ⟨stk, path, strm⟩ val hstk
    simp only at hstk
    subst hstk
    cases strm <;> cases val <;> exact ⟨_, _, rfl, rfl⟩
  · rintro ⟨stk, path, strm⟩ vec rest val hstk hns
    simp only at hstk
    subst hstk
    cases val with
    | String s => exact absurd rfl (hns s)
    | Null => cases strm <;> exact ⟨_, _, rfl, rfl⟩
    | Boolean bv => cases strm <;> exact ⟨_, _, rfl, rfl⟩
    | Number n => cases strm <;> exact ⟨_, _, rfl, rfl⟩
    | Array xs => cases strm <;> exact ⟨_, _, rfl, rfl⟩
    | Object m => cases strm <;> exact ⟨_, _, rfl, rfl⟩

/-- Witness for C2 at concrete inputs: wrapping a number at the root,
then appending a second number to the implicit root array. -/
theorem c2_witness :
    (∃ snap b', (Builder.new false).finishValue (.Number (.Integer 7)) = .ok (snap, b') ∧
      b'.stack = [.arr [.Number (.Integer 7)]]) ∧
    (∃ snap b',
      (Builder.finishValue ⟨[.arr [.Number (.Integer 7)]], [], false⟩ (.Number (.Integer 8))) =
        .ok (snap, b') ∧
      b'.stack = [.arr [.Number (.Integer 7), .Number (.Integer 8)]]) :=
  ⟨c2_amended.1 (Builder.new false) _ rfl,
    c2_amended.2.1 ⟨[.arr [.Number (.Integer 7)]], [], false⟩ _ _ _ rfl (fun s h => by
      exact JsonValue.noConfusion h)⟩

/-- C3, counterexample.  The string `", ,"` consists of nothing but
commas and whitespace (its whitespace-trim is all commas and blanks),
so the claim requires it to be silently discarded when completed into a
root-level array; the code's discard test — trim whitespace at the
ends, then trim commas at the ends — leaves the inner blank `" "`,
which is non-empty, so the value is appended as a new element
instead. -/
theorem c3_counterexample :
    (Builder.feedEvent ⟨[.arr [.String ("x".data)]], [], false⟩ (.StrEnd (", ,".data))) =
      .ok (none, ⟨[.arr [.String ("x".data), .String (", ,".data)]], [], false⟩) ∧
    (rustTrim (", ,".data)).all (fun c => c = ',' ∨ isWsChar c) = true ∧
    ([JsonValue.String ("x".data), .String (", ,".data)]).length ≠
      ([JsonValue.String ("x".data)]).length :=
  ⟨rfl, by decide, by decide⟩

/-- C3 (amended).  When a completed string value meets an `Array` frame:
if trimming whitespace at the ends and then commas at the ends leaves
nothing, the value is silently discarded (state unchanged); otherwise,
if the array's last element is a string ending in `,` or `, `, the
trailing run of commas and spaces is stripped from it and the new
string is concatenated onto it instead of being pushed. -/
theorem c3_amended :
    (∀ (b : Builder) vec rest cur, b.stack = .arr vec :: rest →
      trimCommaMatches (rustTrim cur) = [] →
      b.finishValue (.String cur) = .ok (none, b)) ∧
    (∀ (b : Builder) vec rest cur prev, b.stack = .arr vec :: rest →
      trimCommaMatches (rustTrim cur) ≠ [] →
      vec.getLast? = some (.String prev) →
      ((", ".data).isSuffixOf prev = true ∨ (",".data).isSuffixOf prev = true) →
      b.finishValue (.String cur) =
        .ok (none,
          { b with
            stack := .arr (vec.dropLast ++ [JsonValue.String (dropRightWhile (fun c => c = ',' ∨ c = ' ') prev ++ cur)]) :: rest })) := by
  constructor
  · rintro ⟨stk, path, strm⟩ vec rest cur hstk htrim
    simp only at hstk
    subst hstk
    simp [Builder.finishValue, htrim]
  · rintro ⟨stk, path, strm⟩ vec rest cur prev hstk htrim hlast hsuf
    simp only at hstk
    subst hstk
    unfold Builder.finishValue
    simp only [hlast, if_neg htrim, if_pos hsuf]

/-- Witness for C3 at concrete inputs: `",,"` is discarded; `"b"` is
glued onto a previous element `"a,"`. -/
theorem c3_witness :
    (Builder.finishValue ⟨[.arr []], [], false⟩ (.String (",,".data)) =
      .ok (none, ⟨[.arr []], [], false⟩)) ∧
    (Builder.finishValue ⟨[.arr [.String ("a,".data)]], [], false⟩ (.String ("b".data)) =
      .ok (none, ⟨[.arr [.String ("ab".data)]], [], false⟩)) := by
  constructor
  · exact c3_amended.1 _ [] [] _ rfl (by decide)
  · have h := c3_amended.2 ⟨[.arr [.String ("a,".data)]], [], false⟩ [.String ("a,".data)] []
      ("b".data) ("a,".data) rfl (by decide) rfl (by right; decide)
    exact h

/-- Membership in the leading-payload emission implies the
`inside_ignored` annotation is false (the emission is guarded). -/
theorem mem_tfLead (tf : TagFinder) (pre : Str) (p : TagEvent × Bool)
    (hp : p ∈ tfLead tf pre) : p.2 = false := by
  unfold tfLead at hp
  split at hp <;> rename_i hguard
  · simp only [List.mem_singleton] at hp
    subst hp
    simp only [Bool.and_eq_true, Bool.not_eq_true'] at hguard
    exact hguard.1.2
  · simp at hp

/-- Membership in the tag `Open`/`Close` emission implies the
`inside_ignored` annotation is false (both emissions are guarded). -/
theorem mem_tfEmit (tf : TagFinder) (c i w : Bool) (name : Str) (p : TagEvent × Bool)
    (hp : p ∈ tfEmit tf c i w name) : p.2 = false := by
  unfold tfEmit at hp
  split at hp
  · split at hp
    · simp at hp
    · split at hp <;> rename_i hguard
      · simp only [List.mem_singleton] at hp
        subst hp
        simp only [Bool.and_eq_true, Bool.not_eq_true'] at hguard
        exact hguard.2
      · simp at hp
  · split at hp
    · simp at hp
    · split at hp <;> rename_i hguard
      · simp only [List.mem_singleton] at hp
        subst hp
        simp only [Bool.and_eq_true, Bool.not_eq_true'] at hguard
        exact hguard.2
      · simp at hp

/-- The per-tag state transition preserves the invariant that
`inside_ignored` holds exactly when `ignored_depth` is positive. -/
theorem tfTagState_inv (tf : TagFinder) (c i w : Bool)
    (hinv : tf.insideIgnored = decide (tf.ignoredDepth ≠ 0)) :
    (tfTagState tf c i w).insideIgnored =
      decide ((tfTagState tf c i w).ignoredDepth ≠ 0) := by
  unfold tfTagState
  split
  · split
    · simp
    · split <;> simpa using hinv
  · split <;> rename_i hig
    · simp only [Bool.and_eq_true] at hig
      have hfl : tf.insideIgnored = true := hig.2
      by_cases h0 : tf.ignoredDepth - 1 = 0
      · simp [h0]
      · simp [h0, hfl]
    · split <;> simpa using hinv

/-- Membership in the single-tag processing step implies the
`inside_ignored` annotation is false. -/
theorem mem_tfTagStep (tf : TagFinder) (body : Str) (p : TagEvent × Bool)
    (hp : p ∈ (tfTagStep tf body).1) : p.2 = false := by
  simp only [tfTagStep] at hp
  split at hp <;> rename_i hguard
  · simp only [List.mem_singleton] at hp
    subst hp
    simp only [Bool.and_eq_true, Bool.not_eq_true'] at hguard
    exact hguard.1.1.2
  · exact mem_tfEmit _ _ _ _ _ p hp

/-- The single-tag processing step preserves the invariant that
`inside_ignored` holds exactly when `ignored_depth` is positive. -/
theorem tfTagStep_inv (tf : TagFinder) (body : Str)
    (hinv : tf.insideIgnored = decide (tf.ignoredDepth ≠ 0)) :
    (tfTagStep tf body).2.insideIgnored =
      decide ((tfTagStep tf body).2.ignoredDepth ≠ 0) := by
  simp only [tfTagStep]
  split
  · simpa using hinv
  · exact tfTagState_inv tf _ _ _ hinv

/-- Every event `tfRun` emits is emitted from a configuration whose
`inside_ignored` flag is false: each `emit` call in the source is
guarded by `!self.inside_ignored`. -/
theorem tfRun_flags (fuel : Nat) : ∀ (tf : TagFinder) (p : TagEvent × Bool),
    p ∈ (tfRun fuel tf).1 → p.2 = false := by
  induction fuel with
  | zero =>
    intro tf p hp
    simp [tfRun] at hp
  | succ fuel ih =>
    intro tf p hp
    unfold tfRun at hp
    split at hp
    · -- no '<' in the buffer: tail handling
      split at hp <;> rename_i hguard
      · simp only [List.mem_singleton] at hp
        subst hp
        simp only [Bool.and_eq_true, Bool.not_eq_true'] at hguard
        exact hguard.1.2
      · simp at hp
    · split at hp
      · -- '>' missing: only the leading payload was emitted
        exact mem_tfLead _ _ p hp
      · -- a complete tag was processed
        simp only [List.mem_append] at hp
        rcases hp with (hp | hp) | hp
        · exact mem_tfLead _ _ p hp
        · exact mem_tfTagStep _ _ p hp
        · exact ih _ p hp

/-- `tfRun` preserves the bookkeeping invariant that `inside_ignored`
holds exactly when `ignored_depth` is positive (equation-hypothesis
form). -/
theorem tfRun_flag_depth_aux (fuel : Nat) :
    ∀ (tf : TagFinder) (evs : List (TagEvent × Bool)) (tf' : TagFinder),
      tfRun fuel tf = (evs, tf') →
      tf.insideIgnored = decide (tf.ignoredDepth ≠ 0) →
      tf'.insideIgnored = decide (tf'.ignoredDepth ≠ 0) := by
  induction fuel with
  | zero =>
    intro tf evs tf' heq hinv
    unfold tfRun at heq
    injection heq with h1 h2
    subst h2
    exact hinv
  | succ fuel ih =>
    intro tf evs tf' heq hinv
    unfold tfRun at heq
    split at heq
    · split at heq <;>
        (injection heq with h1 h2
         subst h2
         simpa using hinv)
    · split at heq
      · injection heq with h1 h2
        subst h2
        simpa using hinv
      · injection heq with h1 h2
        subst h2
        exact ih _ _ _ rfl (tfTagStep_inv tf _ hinv)

/-- `tfRun` preserves the bookkeeping invariant that `inside_ignored`
holds exactly when `ignored_depth` is positive. -/
theorem tfRun_flag_depth (fuel : Nat) (tf : TagFinder)
    (hinv : tf.insideIgnored = decide (tf.ignoredDepth ≠ 0)) :
    (tfRun fuel tf).2.insideIgnored = decide ((tfRun fuel tf).2.ignoredDepth ≠ 0) :=
  tfRun_flag_depth_aux fuel tf (tfRun fuel tf).1 (tfRun fuel tf).2 rfl hinv

/-- Take/drop of a satisfying block followed by a failing element. -/
theorem takeWhile_all_append (p : Char → Bool) (t : Str) (h : ∀ c ∈ t, p c = true)
    (x : Char) (hx : p x = false) (rest : Str) :
    (t ++ x :: rest).takeWhile p = t ∧ (t ++ x :: rest).dropWhile p = x :: rest := by
  induction t with
  | nil => simp [List.takeWhile_cons, List.dropWhile_cons, hx]
  | cons a t ihp =>
    have ha : p a = true := h a (List.mem_cons_self a t)
    obtain ⟨h1, h2⟩ := ihp (fun c hc => h c (List.mem_cons_of_mem a hc))
    constructor
    · simp [List.takeWhile_cons, ha, h1]
    · simp [List.dropWhile_cons, ha, h2]

/-- A complete tag at the head of the buffer whose name is neither
wanted nor ignored (with a non-empty wanted set), scanned from inside a
wanted region outside any ignored region, is emitted verbatim as a
single payload event — angle brackets included — and scanning resumes
after it with unchanged state. -/
theorem tfRun_verbatim (fuel : Nat) (tf : TagFinder) (t rest : Str)
    (hin : tf.inside = true) (hig : tf.insideIgnored = false)
    (hbuf : tf.buf = '<' :: (t ++ '>' :: rest))
    (ht : ∀ c ∈ t, c ≠ '>')
    (hwne : tf.wanted.isEmpty = false)
    (hw : tf.wanted.contains ((tagName t).map Char.toLower) = false)
    (hi : tf.ignored.contains ((tagName t).map Char.toLower) = false) :
    tfRun (fuel + 1) tf =
      ((TagEvent.Bytes ('<' :: (t ++ ['>'])), false) ::
          (tfRun fuel { tf with buf := rest }).1,
        (tfRun fuel { tf with buf := rest }).2) := by
  obtain ⟨htk, hdr⟩ := takeWhile_all_append (fun c => decide (c ≠ '>')) t
    (fun c hc => by simpa using ht c hc) '>' (by simp) rest
  conv_lhs => rw [tfRun.eq_def]
  simp only [hbuf, List.dropWhile_cons, List.takeWhile_cons, decide_not]
  simp only [decide_True, Bool.not_true, Bool.false_eq_true, if_false]
  simp only [decide_not] at htk hdr
  simp only [hdr, htk]
  have hstep : tfTagStep tf t =
      ([(TagEvent.Bytes ('<' :: (t ++ ['>'])), tf.insideIgnored)], tf) := by
    unfold tfTagStep
    rw [if_pos]
    simp only [tfIsWanted, hwne, if_false, Bool.and_eq_true, hin, hig, hw, hi]
    simp
  rw [hstep]
  simp [tfLead, hig]

/-- C8.  Tag classification by the scanner: (i) every event the scanner
emits is emitted from a configuration whose `inside_ignored` flag is
false -- content inside an ignored region, nested tags included, is
never emitted, since every `emit` in the push loop is guarded by
`!self.inside_ignored`; (ii) the `inside_ignored` flag tracks
`ignored_depth != 0` across a whole scan; (iii) a complete tag that is
neither wanted nor ignored, scanned inside a wanted region outside any
ignored region (non-empty wanted set), is emitted verbatim as a single
`Bytes` payload including its angle brackets, with the scanner state
unchanged; and (iv) the claim's example: pushing
`<Outer>A<Ignored>hidden<Other>x</Other></Ignored>B</Outer>` with
wanted = {Outer} and ignored = {Ignored} yields exactly
`Open Outer, Bytes A, Bytes B, Close Outer` -- neither `hidden` nor `x`
nor the `<Other>` tags are visible downstream -- while without the
ignored wrapper the non-wanted `<Other>` tags and their content are
emitted verbatim as payload. -/
theorem c8_tag_classification :
    (∀ (fuel : Nat) (tf : TagFinder) (p : TagEvent × Bool),
        p ∈ (tfRun fuel tf).1 → p.2 = false) ∧
    (∀ (fuel : Nat) (tf : TagFinder),
        tf.insideIgnored = decide (tf.ignoredDepth ≠ 0) →
        (tfRun fuel tf).2.insideIgnored =
          decide ((tfRun fuel tf).2.ignoredDepth ≠ 0)) ∧
    (∀ (fuel : Nat) (tf : TagFinder) (t rest : Str),
        tf.inside = true → tf.insideIgnored = false →
        tf.buf = '<' :: (t ++ '>' :: rest) →
        (∀ c ∈ t, c ≠ '>') →
        tf.wanted.isEmpty = false →
        tf.wanted.contains ((tagName t).map Char.toLower) = false →
        tf.ignored.contains ((tagName t).map Char.toLower) = false →
        tfRun (fuel + 1) tf =
          ((TagEvent.Bytes ('<' :: (t ++ ['>'])), false) ::
              (tfRun fuel { tf with buf := rest }).1,
            (tfRun fuel { tf with buf := rest }).2)) ∧
    (TagFinder.newWithFilter [("Outer".data)] [("Ignored".data)]).pushEvents
        ("<Outer>A<Ignored>hidden<Other>x</Other></Ignored>B</Outer>".data) =
      [.Open ("Outer".data), .Bytes ("A".data), .Bytes ("B".data),
        .Close ("Outer".data)] ∧
    (TagFinder.newWithFilter [("Outer".data)] [("Ignored".data)]).pushEvents
        ("<Outer>A<Other>x</Other>B</Outer>".data) =
      [.Open ("Outer".data), .Bytes ("A".data), .Bytes ("<Other>".data),
        .Bytes ("x".data), .Bytes ("</Other>".data), .Bytes ("B".data),
        .Close ("Outer".data)] :=
  ⟨tfRun_flags, tfRun_flag_depth,
    fun fuel tf t rest => tfRun_verbatim fuel tf t rest, rfl, rfl⟩

/-- C8, witness: the classification theorem applied at the concrete
configuration `tfVerbatimSample` (inside wanted region `outer`, buffer
`<Other>x`), discharging every hypothesis there: the single emitted
event carries flag false, the flag/depth invariant holds after the
scan, and the complete non-wanted tag `<Other>` is emitted verbatim. -/
theorem c8_witness :
    ((TagEvent.Bytes ("<Other>".data), false) : TagEvent × Bool).2 = false ∧
    (tfRun 1 tfVerbatimSample).2.insideIgnored =
      decide ((tfRun 1 tfVerbatimSample).2.ignoredDepth ≠ 0) ∧
    tfRun 1 tfVerbatimSample =
      ((TagEvent.Bytes ('<' :: (("Other".data) ++ ['>'])), false) ::
          (tfRun 0 { tfVerbatimSample with buf := ("x".data) }).1,
        (tfRun 0 { tfVerbatimSample with buf := ("x".data) }).2) :=
  ⟨c8_tag_classification.1 1 tfVerbatimSample
      (TagEvent.Bytes ("<Other>".data), false) (by decide),
    c8_tag_classification.2.1 1 tfVerbatimSample rfl,
    c8_tag_classification.2.2.1 0 tfVerbatimSample ("Other".data) ("x".data)
      rfl rfl rfl (by decide) rfl (by decide) (by decide)⟩

/-- C10, counterexample.  While the wanted region is still open
(`is_done` false), step CAN return a one-element array: for the single
chunk `<T>[[5]]` the internal parse of the payload yields the root
snapshot `[[5]]`, a one-element array whose single element `[5]` is
itself a one-element array; the unwrap is applied only once, so `step`
returns the one-element array `[5]`. -/
theorem c10_counterexample :
    ((StreamParser.new [("T".data)] []).step ("<T>[[5]]".data)).map
        (fun r => (r.1, r.2.done)) =
      .ok (some (.Array [.Number (.Integer 5)]), false) ∧
    ([JsonValue.Number (.Integer 5)]).length = 1 :=
  ⟨rfl, rfl⟩

/-- C10 (amended).  Whenever a step processes exactly one payload event
while capturing and the internal parse returns `Ok(v)`: if `v` is an
array of length exactly one, `step` returns its single element; any
other value (including arrays of other lengths) is returned as is. -/
theorem c10_amended (sp : StreamParser) (chunk : Str) (annEvs : List (TagEvent × Bool))
    (tg' : TagFinder) (b : Str) (v : JsonValue) (p' : Parser)
    (hdone : sp.done = false)
    (hpush : sp.tagger.push chunk = (annEvs, tg'))
    (hevs : annEvs.map Prod.fst = [.Bytes b])
    (hcap : sp.capturing = true)
    (hparse : sp.inner.parse b = .ok (v, p')) :
    sp.step chunk =
      .ok ((match v with
            | .Array [x] => some x
            | v' => some v'),
        { sp with tagger := tg', inner := p' }) := by
  unfold StreamParser.step
  simp only [hdone, Bool.false_eq_true, if_false, hpush, hevs]
  unfold stepGo
  simp only [hcap, if_pos rfl, hparse]
  unfold stepGo
  rcases v with _ | bv | nv | sv | xs | m
  · rfl
  · rfl
  · rfl
  · rfl
  · rcases xs with _ | ⟨x, _ | ⟨y, t⟩⟩ <;> rfl
  · rfl

/-- Witness for C10: a capturing stream parser receiving the payload
`[5]` unwraps the one-element root array to the bare number 5. -/
theorem c10_witness :
    ((({ StreamParser.new [("t".data)] [] with
        capturing := true,
        tagger := { TagFinder.newWithFilter [("t".data)] [] with
          inside := true } } : StreamParser).step
          ("[5]".data)).map (fun r => r.1)) = .ok (some (.Number (.Integer 5))) := by
  have h := c10_amended
    ({ StreamParser.new [("t".data)] [] with
        capturing := true,
        tagger := { TagFinder.newWithFilter [("t".data)] [] with inside := true } } : StreamParser)
    ("[5]".data) _ _ _ _ _ rfl rfl rfl rfl rfl
  rw [h]
  rfl

/-- C5, counterexample.  A one-shot `IdentEnd` (no preceding
`IdentChunk`) whose text is not a keyword is stored as a string
verbatim: feeding `IdentEnd "a  b"` to an empty builder stores
`"a  b"`, not the whitespace-collapsed `"a b"` the claim requires.
(Only the chunked identifier path applies `squash_ws`.) -/
theorem c5_counterexample :
    (Builder.feedEvent ⟨[], [], false⟩ (.IdentEnd ("a  b".data))) =
      .ok (none, ⟨[.arr [.String ("a  b".data)]], [], false⟩) ∧
    squash_ws ("a  b".data) = ("a b".data) ∧
    ("a  b".data) ≠ ("a b".data) :=
  ⟨rfl, by decide, by decide⟩

/-- C5 (amended).  A non-empty identifier is recognised as a keyword
prefix exactly per `parse_ident` (case-sensitive prefixes of `true`,
`false`, `null` give the boolean or null literal); an identifier
completed through the chunked path (`IdentChunk` then `IdentEnd`) that
is not a keyword and is not becoming an object key finalises to a
string with runs of whitespace collapsed; a one-shot identifier in the
same position finalises to its text verbatim, with no whitespace
collapsing. -/
theorem c5_amended :
    (∀ s : Str, s ≠ [] →
      ((∃ n, s = ("true".data).take n) → parse_ident s = some (.Boolean true)) ∧
      ((∃ n, s = ("false".data).take n) → parse_ident s = some (.Boolean false)) ∧
      ((∃ n, s = ("null".data).take n) → parse_ident s = some .Null) ∧
      ((¬ ∃ n, s = ("true".data).take n) → (¬ ∃ n, s = ("false".data).take n) →
        (¬ ∃ n, s = ("null".data).take n) → parse_ident s = none)) ∧
    (∀ (b : Builder) buf rest tok lit, b.stack = .ident buf :: rest →
      parse_ident (buf ++ tok) = some lit →
      b.feedEvent (.IdentEnd tok) = Builder.finishValue { b with stack := rest } lit) ∧
    (∀ (b : Builder) buf rest tok, b.stack = .ident buf :: rest →
      parse_ident (buf ++ tok) = none →
      Builder.parentWantsKey { b with stack := rest } = false →
      b.feedEvent (.IdentEnd tok) =
        Builder.finishValue { b with stack := rest }
          (.String (squash_ws (buf ++ tok)))) ∧
    (∀ (b : Builder) tok, (∀ s, b.stack.head? ≠ some (.ident s)) →
      b.parentWantsKey = false →
      b.feedEvent (.IdentEnd tok) =
        Builder.finishValue b.pushPathForScalar ((parse_ident tok).getD (.String tok))) := by
  refine ⟨?_, ?_, ?_, ?_⟩
  · intro s hne
    refine ⟨?_, ?_, ?_, ?_⟩
    · rintro ⟨n, rfl⟩
      rcases n with _ | _ | _ | _ | n
      · exact absurd rfl hne
      · rfl
      · rfl
      · rfl
      · rw [List.take_of_length_le (by simp)]
        rfl
    · rintro ⟨n, rfl⟩
      rcases n with _ | _ | _ | _ | _ | n
      · exact absurd rfl hne
      · rfl
      · rfl
      · rfl
      · rfl
      · rw [List.take_of_length_le (by simp)]
        rfl
    · rintro ⟨n, rfl⟩
      rcases n with _ | _ | _ | _ | n
      · exact absurd rfl hne
      · rfl
      · rfl
      · rfl
      · rw [List.take_of_length_le (by simp)]
        rfl
    · intro hnt hnf hnn
      have H1 : ¬(s = ("t".data) ∨ s = ("tr".data) ∨ s = ("tru".data) ∨ s = ("true".data)) := by
        rintro (h | h | h | h)
        exacts [hnt ⟨1, h⟩, hnt ⟨2, h⟩, hnt ⟨3, h⟩, hnt ⟨4, h⟩]
      have H2 : ¬(s = ("f".data) ∨ s = ("fa".data) ∨ s = ("fal".data) ∨ s = ("fals".data) ∨
          s = ("false".data)) := by
        rintro (h | h | h | h | h)
        exacts [hnf ⟨1, h⟩, hnf ⟨2, h⟩, hnf ⟨3, h⟩, hnf ⟨4, h⟩, hnf ⟨5, h⟩]
      have H3 : ¬(s = ("n".data) ∨ s = ("nu".data) ∨ s = ("nul".data) ∨ s = ("null".data)) := by
        rintro (h | h | h | h)
        exacts [hnn ⟨1, h⟩, hnn ⟨2, h⟩, hnn ⟨3, h⟩, hnn ⟨4, h⟩]
      unfold parse_ident
      rw [if_neg H1, if_neg H2, if_neg H3]
  · rintro ⟨stk, path, strm⟩ buf rest tok lit hstk hpi
    simp only at hstk
    subst hstk
    unfold Builder.feedEvent
    simp only [hpi]
  · rintro ⟨stk, path, strm⟩ buf rest tok hstk hpi hpk
    simp only at hstk
    subst hstk
    unfold Builder.feedEvent
    simp only [hpi, hpk]
    simp
  · rintro ⟨stk, path, strm⟩ tok hhead hpk
    rcases stk with _ | ⟨f, rest⟩
    · unfold Builder.feedEvent
      simp only [hpk] at *
      simp [hpk]
    · cases f with
      | ident s => exact absurd rfl (hhead s)
      | obj m lk =>
        unfold Builder.feedEvent
        simp [hpk]
      | arr v =>
        unfold Builder.feedEvent
        simp [hpk]
      | str s =>
        unfold Builder.feedEvent
        simp [hpk]
      | num s =>
        unfold Builder.feedEvent
        simp [hpk]

/-- Witness for C5 at concrete inputs: the chunked path squashes the
whitespace of `he llo`, the one-shot path keeps `tru` a boolean. -/
theorem c5_witness :
    parse_ident ("tru".data) = some (.Boolean true) ∧
    (Builder.feedEvent ⟨[.ident ("he ".data)], [], false⟩ (.IdentEnd ("llo".data)) =
      Builder.finishValue ⟨[], [], false⟩ (.String (squash_ws ("he llo".data)))) ∧
    (Builder.feedEvent ⟨[], [], false⟩ (.IdentEnd ("tru".data)) =
      Builder.finishValue (Builder.pushPathForScalar ⟨[], [], false⟩)
        ((parse_ident ("tru".data)).getD (.String ("tru".data)))) := by
  refine ⟨?_, ?_, ?_⟩
  · exact ((c5_amended.1 ("tru".data) (by decide)).1 ⟨3, rfl⟩)
  · exact c5_amended.2.2.1 ⟨[.ident ("he ".data)], [], false⟩ ("he ".data) [] ("llo".data)
      rfl rfl rfl
  · exact c5_amended.2.2.2 ⟨[], [], false⟩ ("tru".data) (fun s h => by simp at h) rfl

/-- C6.  A keyword identifier ending where it would become an object
key — one-shot with the enclosing `Object` frame pending no key, or
closing a chunked identifier over such a frame — makes `feed_event`
fail with `InvalidKey`; in particular the non-streaming parse of
`\x7btrue:1\x7d` fails with `InvalidKey`. -/
theorem c6_invalid_keyword_key :
    (∀ (b : Builder) map rest tok, b.stack = .obj map none :: rest →
      (parse_ident tok).isSome = true →
      b.feedEvent (.IdentEnd tok) = .error .InvalidKey) ∧
    (∀ (b : Builder) buf map rest tok lit, b.stack = .ident buf :: .obj map none :: rest →
      parse_ident (buf ++ tok) = some lit →
      b.feedEvent (.IdentEnd tok) = .error .InvalidKey) ∧
    parseValue ("\x7btrue:1\x7d".data) = .error .InvalidKey := by
  refine ⟨?_, ?_, rfl⟩
  · rintro ⟨stk, path, strm⟩ map rest tok hstk hsome
    simp only at hstk
    subst hstk
    obtain ⟨v, hv⟩ := Option.isSome_iff_exists.mp hsome
    unfold Builder.feedEvent
    simp only [hv]
    simp [Builder.parentWantsKey]
  · rintro ⟨stk, path, strm⟩ buf map rest tok lit hstk hpi
    simp only at hstk
    subst hstk
    unfold Builder.feedEvent
    simp only [hpi]
    rfl

/-- Witness for C6 at a concrete input: `true` ending as a key. -/
theorem c6_witness :
    Builder.feedEvent ⟨[.obj [] none], [], false⟩ (.IdentEnd ("true".data)) =
      .error .InvalidKey :=
  c6_invalid_keyword_key.1 ⟨[.obj [] none], [], false⟩ [] [] ("true".data) rfl rfl

/-- The `\u` arm of `unescape`, factored for the C7 proofs: four
characters are consumed and radix-16 parsed, surrogates are rejected. -/
theorem unescape_u (h1 h2 h3 h4 : Char) (rest : Str) :
    unescape (bslash :: 'u' :: h1 :: h2 :: h3 :: h4 :: rest) =
      (match radix16U16 [h1, h2, h3, h4] with
      | none => .error .InvalidEscape
      | some cp =>
        if 55296 ≤ cp ∧ cp ≤ 57343 then .error .InvalidEscape
        else (unescape rest).map (Char.ofNat cp :: ·)) := rfl

/-- C7, counterexample.  `\uD800` is a backslash-u followed by exactly
four hexadecimal digits, yet `unescape` fails with `InvalidEscape`:
the digits denote a surrogate code unit, which `char::from_u32`
rejects. -/
theorem c7_counterexample :
    unescape ("\\uD800".data) = .error .InvalidEscape ∧
    (isHexDig 'D' ∧ isHexDig '8' ∧ isHexDig '0') :=
  ⟨rfl, by decide⟩

/-- C7 (amended).  `unescape` passes non-backslash characters through;
decodes the eight single-character escapes of the set
`\" \\ \/ \b \f \n \r \t`; on `\u` followed by four hexadecimal digits
succeeds with the denoted code unit exactly when that unit is not a
surrogate (surrogates give `InvalidEscape`); and yields `InvalidEscape`
for a truncated `\uXXXX`, for four following characters that fail the
radix-16 parse, for a backslash before any character outside the escape
set, and for a dangling final backslash. -/
theorem c7_amended :
    (∀ c rest, c ≠ bslash → unescape (c :: rest) = (unescape rest).map (c :: ·)) ∧
    (∀ rest, unescape (bslash :: dquote :: rest) = (unescape rest).map (dquote :: ·)) ∧
    (∀ rest, unescape (bslash :: bslash :: rest) = (unescape rest).map (bslash :: ·)) ∧
    (∀ rest, unescape (bslash :: '/' :: rest) = (unescape rest).map ('/' :: ·)) ∧
    (∀ rest, unescape (bslash :: 'b' :: rest) = (unescape rest).map (bsCh :: ·)) ∧
    (∀ rest, unescape (bslash :: 'f' :: rest) = (unescape rest).map (ffCh :: ·)) ∧
    (∀ rest, unescape (bslash :: 'n' :: rest) = (unescape rest).map (lfCh :: ·)) ∧
    (∀ rest, unescape (bslash :: 'r' :: rest) = (unescape rest).map (crCh :: ·)) ∧
    (∀ rest, unescape (bslash :: 't' :: rest) = (unescape rest).map (tabCh :: ·)) ∧
    (∀ h1 h2 h3 h4 rest, isHexDig h1 = true → isHexDig h2 = true → isHexDig h3 = true →
      isHexDig h4 = true →
      (¬ (55296 ≤ hexQuad h1 h2 h3 h4 ∧ hexQuad h1 h2 h3 h4 ≤ 57343) →
        unescape (bslash :: 'u' :: h1 :: h2 :: h3 :: h4 :: rest) =
          (unescape rest).map (Char.ofNat (hexQuad h1 h2 h3 h4) :: ·)) ∧
      ((55296 ≤ hexQuad h1 h2 h3 h4 ∧ hexQuad h1 h2 h3 h4 ≤ 57343) →
        unescape (bslash :: 'u' :: h1 :: h2 :: h3 :: h4 :: rest) = .error .InvalidEscape)) ∧
    (∀ l : Str, l.length < 4 → unescape (bslash :: 'u' :: l) = .error .InvalidEscape) ∧
    (∀ c1 c2 c3 c4 rest, radix16U16 [c1, c2, c3, c4] = none →
      unescape (bslash :: 'u' :: c1 :: c2 :: c3 :: c4 :: rest) = .error .InvalidEscape) ∧
    (∀ e rest, e ≠ dquote → e ≠ bslash → e ≠ '/' → e ≠ 'b' → e ≠ 'f' → e ≠ 'n' →
      e ≠ 'r' → e ≠ 't' → e ≠ 'u' →
      unescape (bslash :: e :: rest) = .error .InvalidEscape) ∧
    unescape [bslash] = .error .InvalidEscape := by
  refine ⟨?_, ?_, ?_, ?_, ?_, ?_, ?_, ?_, ?_, ?_, ?_, ?_, ?_, rfl⟩
  · intro c rest hc
    rw [unescape.eq_def]
    simp only [if_neg hc]
  · intro rest
    rw [unescape.eq_def]
    simp [bslash, dquote, bsCh, ffCh, lfCh, crCh, tabCh]
  · intro rest
    rw [unescape.eq_def]
    simp [bslash, dquote, bsCh, ffCh, lfCh, crCh, tabCh]
  · intro rest
    rw [unescape.eq_def]
    simp [bslash, dquote, bsCh, ffCh, lfCh, crCh, tabCh]
  · intro rest
    rw [unescape.eq_def]
    simp [bslash, dquote, bsCh, ffCh, lfCh, crCh, tabCh]
  · intro rest
    rw [unescape.eq_def]
    simp [bslash, dquote, bsCh, ffCh, lfCh, crCh, tabCh]
  · intro rest
    rw [unescape.eq_def]
    simp [bslash, dquote, bsCh, ffCh, lfCh, crCh, tabCh]
  · intro rest
    rw [unescape.eq_def]
    simp [bslash, dquote, bsCh, ffCh, lfCh, crCh, tabCh]
  · intro rest
    rw [unescape.eq_def]
    simp [bslash, dquote, bsCh, ffCh, lfCh, crCh, tabCh]
  · intro h1 h2 h3 h4 rest g1 g2 g3 g4
    have hr := radix16U16_of_hex h1 h2 h3 h4 g1 g2 g3 g4
    constructor
    · intro hns
      rw [unescape_u, hr]
      simp only [if_neg hns]
    · intro hs
      rw [unescape_u, hr]
      simp only [if_pos hs]
  · intro l hl
    rcases l with _ | ⟨a, _ | ⟨b, _ | ⟨c, _ | ⟨d, t⟩⟩⟩⟩
    · rfl
    · rfl
    · rfl
    · rfl
    · simp only [List.length_cons] at hl
      omega
  · intro c1 c2 c3 c4 rest hr
    rw [unescape_u, hr]
  · intro e rest h1 h2 h3 h4 h5 h6 h7 h8 h9
    rw [unescape.eq_def]
    simp only [if_pos rfl, if_neg h1, if_neg h2, if_neg h3, if_neg h4, if_neg h5, if_neg h6,
      if_neg h7, if_neg h8, if_neg h9]
    simp
example : parse_ident ("tru".data) = some (.Boolean true) := rfl
example : parse_number ("123".data) = .ok (.Integer 123) := rfl
example : parse_number (".".data) = .ok (.Integer 0) := rfl
example : parse_number ("1x.".data) = .error (.InvalidNumber ("1x".data)) := rfl
example : unescape ("a".data) = .ok ("a".data) := rfl
example : unescape ("\\uD800".data) = .error .InvalidEscape := rfl
example : unescape ("\\u0041".data) = .ok ("A".data) := rfl

end Gasp
